import Mathlib

/-!
Verification of the rppm-bulletjournal core: calendar model, page map and
link ledger.  The Python sources are embedded shallowly:

* calendar arithmetic follows CPython's `datetime`/`calendar` internals
  (`_days_before_year`, `_ymd2ord`, `isocalendar`, `_isoweek1monday`,
  `calendar.monthrange`, `calendar.isleap`), which `calendar_model.py`
  consumes; ordinals are 1-based day counts from Jan 1 of year 1
  (proleptic Gregorian), as in `date.toordinal`;
* `CalendarModel.for_year`, `day_of_year`, `week_date_range` and
  `week_primary_month` are translated line by line from
  `src/bujo/calendar_model.py` (identical to `src/rppm/calendar_model.py`
  for the shared part);
* `Settings`, `PageMap`, `build_page_map` and the page accessors come from
  `src/bujo/config/settings.py` and `src/rppm/page_map.py`;
* `DeferredLink`, `LinkManager.add/apply` come from
  `src/bujo/link_manager.py`, with the PyMuPDF document modelled as a page
  count plus the list of inserted link annotations; `doc[i]` resolves
  Python-sequence style (negative wrap) and raises (`Except.error`) on an
  out-of-range index, as PyMuPDF does.

Years are natural numbers; the host date library supports 1 ≤ year ≤ 9999,
and theorems carry a `1 ≤ y` hypothesis.  Week numbers are 1-based natural
numbers as in the source.
-/

/-- Leap-year rule of `calendar.isleap` / `datetime._is_leap`:
divisible by 4 and (not by 100 or by 400). -/
def isleap (y : Nat) : Bool :=
  y % 4 == 0 && (y % 100 != 0 || y % 400 == 0)

/-- Day count of month `m` (1-based) in year `y`, as
`calendar.monthrange(y, m)[1]`: the `mdays` table plus one for February in
a leap year. -/
def monthDays (y m : Nat) : Nat :=
  (match m with
   | 1 => 31 | 2 => 28 | 3 => 31 | 4 => 30 | 5 => 31 | 6 => 30
   | 7 => 31 | 8 => 31 | 9 => 30 | 10 => 31 | 11 => 30 | 12 => 31
   | _ => 0)
  + (if m == 2 && isleap y then 1 else 0)

/-- Days in months `1..m` of year `y`; `daysUpTo y (m-1)` is
`datetime._days_before_month(y, m)`. -/
def daysUpTo (y : Nat) : Nat → Nat
  | 0 => 0
  | m + 1 => daysUpTo y m + monthDays y (m + 1)

/-- Number of days in year `y`. -/
def daysInYear (y : Nat) : Nat := daysUpTo y 12

/-- Days before January 1 of year `y`, as `datetime._days_before_year`. -/
def daysBeforeYear (y : Nat) : Nat :=
  (y - 1) * 365 + (y - 1) / 4 - (y - 1) / 100 + (y - 1) / 400

/-- Proleptic-Gregorian ordinal of a date, as `datetime._ymd2ord`
(`date(1,1,1).toordinal() = 1`). -/
def ymd2ord (y m d : Nat) : Nat :=
  daysBeforeYear y + daysUpTo y (m - 1) + d

/-- Weekday of an ordinal, Monday = 0, as `date.weekday()`. -/
def weekday (n : Nat) : Nat := (n + 6) % 7

/-- Ordinal of the Monday of ISO week 1 of year `y`, as
`datetime._isoweek1monday`. -/
def isoweek1monday (y : Nat) : Nat :=
  let firstday := ymd2ord y 1 1
  let firstweekday := weekday firstday
  let week1monday := firstday - firstweekday
  if firstweekday > 3 then week1monday + 7 else week1monday

/-- ISO week number of the date `(y, m, d)`, as `date.isocalendar().week`.
The Python `divmod` uses floor division on possibly negative integers,
hence `Int.fdiv`. -/
def isocalendarWeek (y m d : Nat) : Nat :=
  let today : Int := ymd2ord y m d
  let week1monday : Int := isoweek1monday y
  let week := Int.fdiv (today - week1monday) 7
  if week < 0 then
    (Int.fdiv (today - (isoweek1monday (y - 1) : Int)) 7 + 1).toNat
  else if 52 ≤ week ∧ (isoweek1monday (y + 1) : Int) ≤ today then 1
  else (week + 1).toNat

/-- MonthInfo record of `calendar_model.py`. -/
structure MonthInfo where
  index : Nat
  name : String
  «abbrev» : String
  days : Nat
  start_day_of_year : Nat
deriving DecidableEq

instance : Inhabited MonthInfo := ⟨⟨0, "", "", 0, 0⟩⟩

/-- English month name, as `calendar.month_name[m]`. -/
def monthName : Nat → String
  | 1 => "January" | 2 => "February" | 3 => "March" | 4 => "April"
  | 5 => "May" | 6 => "June" | 7 => "July" | 8 => "August"
  | 9 => "September" | 10 => "October" | 11 => "November" | 12 => "December"
  | _ => ""

/-- English month abbreviation, as `calendar.month_abbr[m]`. -/
def monthAbbrev : Nat → String
  | 1 => "Jan" | 2 => "Feb" | 3 => "Mar" | 4 => "Apr" | 5 => "May"
  | 6 => "Jun" | 7 => "Jul" | 8 => "Aug" | 9 => "Sep" | 10 => "Oct"
  | 11 => "Nov" | 12 => "Dec"
  | _ => ""

/-- CalendarModel record of `calendar_model.py`. -/
structure CalendarModel where
  year : Nat
  months : List MonthInfo
  total_days : Nat
  weeks_in_year : Nat
deriving DecidableEq

/-- The month loop of `CalendarModel.for_year`: months `m, m+1, ...`
(`k` of them) with the running day-of-year cursor; returns the built
`MonthInfo` list and the final cursor. -/
def forYearLoop (y : Nat) : Nat → Nat → Nat → List MonthInfo × Nat
  | _, cursor, 0 => ([], cursor)
  | m, cursor, k + 1 =>
    let days := monthDays y m
    let rest := forYearLoop y (m + 1) (cursor + days) k
    (⟨m - 1, monthName m, monthAbbrev m, days, cursor⟩ :: rest.1, rest.2)

/-- `CalendarModel.for_year` of `calendar_model.py`: iterate months 1–12
accumulating the day cursor; `weeks_in_year` is the ISO week number of
December 28. -/
def CalendarModel.for_year (y : Nat) : CalendarModel :=
  let r := forYearLoop y 1 0 12
  ⟨y, r.1, r.2, isocalendarWeek y 12 28⟩

/-- `CalendarModel.month`. -/
def CalendarModel.month (c : CalendarModel) (month_idx : Nat) : MonthInfo :=
  c.months.getD month_idx default

/-- `CalendarModel.day_of_year`: `months[month_idx].start_day_of_year +
(day - 1)`.  Indexing is total via `getD`; the source raises for an
out-of-range `month_idx`, and all claims stay in range. -/
def CalendarModel.day_of_year (c : CalendarModel) (month_idx day : Nat) : Nat :=
  (c.months.getD month_idx default).start_day_of_year + (day - 1)

/-- `CalendarModel.week_date_range`: `(Monday, Sunday)` ordinals of ISO
week `week_num` (1-based), anchored at January 4. -/
def CalendarModel.week_date_range (c : CalendarModel) (week_num : Nat) : Nat × Nat :=
  let jan4 := ymd2ord c.year 1 4
  let week1monday := jan4 - weekday jan4
  let start := week1monday + 7 * (week_num - 1)
  (start, start + 6)

/-- Year search for `ord2ymd`: starting from a year `y0` known to satisfy
`daysBeforeYear y0 < n`, walk forward to the year containing ordinal `n`.
Fuel bounds the walk; `ord2year` supplies enough. -/
def yearSearch (n : Nat) : Nat → Nat → Nat
  | y, 0 => y
  | y, fuel + 1 => if n ≤ daysBeforeYear (y + 1) then y else yearSearch n (y + 1) fuel

/-- Year containing ordinal `n` (`n ≥ 1`). -/
def ord2year (n : Nat) : Nat :=
  yearSearch n ((n - 1) / 366 + 1) n

/-- Month search within a year: smallest `m ≥ m0` with
`doy < daysUpTo y m`, walking at most `fuel` months. -/
def monthSearch (y doy : Nat) : Nat → Nat → Nat
  | m, 0 => m
  | m, fuel + 1 => if doy < daysUpTo y m then m else monthSearch y doy (m + 1) fuel

/-- Date `(year, month, day)` of ordinal `n` (`n ≥ 1`), the inverse of
`ymd2ord`, as `datetime._ord2ymd`. -/
def ord2ymd (n : Nat) : Nat × Nat × Nat :=
  let y := ord2year n
  let doy := n - 1 - daysBeforeYear y
  let m := monthSearch y doy 1 11
  (y, m, doy + 1 - daysUpTo y (m - 1))

/-- Zero-based month indices (`date.month - 1`) of the in-year days of the
week starting at ordinal `start`, in chronological order: the day loop of
`week_primary_month` restricted to `current.year == self.year`. -/
def weekInYearMonths (y start : Nat) : List Nat :=
  (List.range 7).filterMap fun i =>
    if (ord2ymd (start + i)).1 = y then some ((ord2ymd (start + i)).2.1 - 1) else none

/-- Insertion-ordered key list of the `days_per_month` dict: first
occurrence order over the day loop. -/
def dictKeys : List Nat → List Nat → List Nat
  | acc, [] => acc
  | acc, m :: rest =>
    if m ∈ acc then dictKeys acc rest else dictKeys (acc ++ [m]) rest

/-- Python's `max(keys, key=f)` over a nonempty key list: the first key
attaining the maximal `f`-value (a later key replaces the current best
only when strictly greater). -/
def maxKey (f : Nat → Nat) : Nat → List Nat → Nat
  | best, [] => best
  | best, m :: rest => maxKey f (if f m > f best then m else best) rest

/-- `CalendarModel.week_primary_month`: count in-year days per month over
the week's 7 days; if no day is in the year, default to January or
December by comparing the week start's year; otherwise the month with the
most days (first wins on ties, per dict order and `max`). -/
def CalendarModel.week_primary_month (c : CalendarModel) (week_num : Nat) : Nat :=
  let start := (c.week_date_range week_num).1
  let ms := weekInYearMonths c.year start
  match ms with
  | [] => if (ord2ymd start).1 < c.year then 0 else 11
  | k :: rest => maxKey (fun m => ms.count m) k rest

/-- Number of the week's days that fall in month `m` (0-based) of the
calendar's year, for the week numbered `week_num`. -/
def weekDaysInMonth (c : CalendarModel) (week_num m : Nat) : Nat :=
  (weekInYearMonths c.year (c.week_date_range week_num).1).count m

/-- Settings of `src/bujo/config/settings.py` (defaults omitted; concrete
values are passed explicitly). -/
structure Settings where
  year : Nat
  pages_per_day : Nat
  pages_per_collection : Nat
  num_guide_pages : Nat
  num_future_log_pages : Nat
  num_collections_per_index : Nat
  num_collection_indexes : Nat
  output_path : String
deriving DecidableEq

/-- PageMap record of `src/rppm/page_map.py`. -/
structure PageMap where
  cover : Nat
  main_index : Nat
  year_index : Nat
  collection_index_c : Nat
  collection_index_d : Nat
  guide_start : Nat
  future_log_start : Nat
  monthly_start : Nat
  weekly_start : Nat
  daily_start : Nat
  collection_start : Nat
  total_pages : Nat
  pages_per_day : Nat
  pages_per_collection : Nat
  num_collection_indexes : Nat
  num_collections_per_index : Nat
deriving DecidableEq

/-- `PageMap.month_timeline`. -/
def PageMap.month_timeline (pm : PageMap) (month_idx : Nat) : Nat :=
  pm.monthly_start + month_idx * 2

/-- `PageMap.month_action_plan`. -/
def PageMap.month_action_plan (pm : PageMap) (month_idx : Nat) : Nat :=
  pm.monthly_start + month_idx * 2 + 1

/-- `PageMap.weekly_action` (week_idx is 0-based here, as at the call
sites). -/
def PageMap.weekly_action (pm : PageMap) (week_idx : Nat) : Nat :=
  pm.weekly_start + week_idx * 2

/-- `PageMap.weekly_reflection`. -/
def PageMap.weekly_reflection (pm : PageMap) (week_idx : Nat) : Nat :=
  pm.weekly_start + week_idx * 2 + 1

/-- `PageMap.daily_page` (the source defaults `page_in_day` to 0). -/
def PageMap.daily_page (pm : PageMap) (day_of_year page_in_day : Nat) : Nat :=
  pm.daily_start + day_of_year * pm.pages_per_day + page_in_day

/-- `PageMap.collection_page`. -/
def PageMap.collection_page (pm : PageMap) (collection_idx : Nat) : Nat :=
  pm.collection_start + collection_idx * pm.pages_per_collection

/-- `build_page_map` of `src/rppm/page_map.py`: strict sequential
accumulation of section starts. -/
def build_page_map (settings : Settings) (calendar : CalendarModel) : PageMap :=
  let cover := 0
  let main_index := 1
  let year_index := 2
  let collection_index_c := 3
  let collection_index_d := 4
  let guide_start := 5
  let future_log_start := guide_start + settings.num_guide_pages
  let monthly_start := future_log_start + settings.num_future_log_pages
  let weekly_start := monthly_start + 12 * 2
  let daily_start := weekly_start + calendar.weeks_in_year * 2
  let collection_start := daily_start + calendar.total_days * settings.pages_per_day
  let total_collections := settings.num_collections_per_index * settings.num_collection_indexes
  let total_pages := collection_start + total_collections * settings.pages_per_collection
  { cover := cover
    main_index := main_index
    year_index := year_index
    collection_index_c := collection_index_c
    collection_index_d := collection_index_d
    guide_start := guide_start
    future_log_start := future_log_start
    monthly_start := monthly_start
    weekly_start := weekly_start
    daily_start := daily_start
    collection_start := collection_start
    total_pages := total_pages
    pages_per_day := settings.pages_per_day
    pages_per_collection := settings.pages_per_collection
    num_collection_indexes := settings.num_collection_indexes
    num_collections_per_index := settings.num_collections_per_index }

/-- DeferredLink of `src/bujo/link_manager.py`; the rectangle type is a
parameter since the code only carries it. -/
structure DeferredLink (R : Type) where
  page_idx : Int
  rect : R
  dest_page_idx : Int
deriving DecidableEq

/-- A PyMuPDF document, modelled by its page count and the link
annotations inserted so far, as `(page index, rect, destination)` triples
in insertion order. -/
structure Document (R : Type) where
  page_count : Nat
  inserted : List (Int × R × Int)
deriving DecidableEq

/-- Resolution of `doc[i]`: Python-sequence indexing with negative wrap;
`none` models the `IndexError` PyMuPDF raises for an out-of-range index. -/
def Document.getPageIdx {R : Type} (doc : Document R) (i : Int) : Option Int :=
  if 0 ≤ i ∧ i < (doc.page_count : Int) then some i
  else if -(doc.page_count : Int) ≤ i ∧ i < 0 then some (i + doc.page_count) else none

/-- `page.insert_link({kind: LINK_GOTO, page: dest, from: rect})` on the
resolved page. -/
def Document.insert_link {R : Type} (doc : Document R) (page : Int) (rect : R)
    (dest : Int) : Document R :=
  ⟨doc.page_count, doc.inserted ++ [(page, rect, dest)]⟩

/-- LinkManager state: the append-only `_links` list. -/
structure LinkManager (R : Type) where
  links : List (DeferredLink R)
deriving DecidableEq

/-- `LinkManager.add`: record a link intent unconditionally. -/
def LinkManager.add {R : Type} (lm : LinkManager R) (page_idx : Int) (rect : R)
    (dest_page_idx : Int) : LinkManager R :=
  ⟨lm.links ++ [⟨page_idx, rect, dest_page_idx⟩]⟩

/-- The loop of `LinkManager.apply`: valid-destination links are inserted
(raising, via `Except.error`, if the source page index does not resolve);
others are collected into the invalid list. -/
def applyLinks {R : Type} :
    List (DeferredLink R) → Document R → List (DeferredLink R) →
    Except (DeferredLink R) (Document R × List (DeferredLink R))
  | [], doc, invalid => .ok (doc, invalid)
  | l :: ls, doc, invalid =>
    if 0 ≤ l.dest_page_idx ∧ l.dest_page_idx < (doc.page_count : Int) then
      match doc.getPageIdx l.page_idx with
      | some p => applyLinks ls (doc.insert_link p l.rect l.dest_page_idx) invalid
      | none => .error l
    else applyLinks ls doc (invalid ++ [l])

/-- `LinkManager.apply`. -/
def LinkManager.apply {R : Type} (lm : LinkManager R) (doc : Document R) :
    Except (DeferredLink R) (Document R × List (DeferredLink R)) :=
  applyLinks lm.links doc []

/-! Arithmetic facts about the calendar embedding. -/

theorem isleap_iff (y : Nat) :
    isleap y = true ↔ y % 4 = 0 ∧ (y % 100 ≠ 0 ∨ y % 400 = 0) := by
  simp [isleap]

theorem daysInYear_unfold (y : Nat) :
    daysInYear y = 0 + monthDays y 1 + monthDays y 2 + monthDays y 3 +
      monthDays y 4 + monthDays y 5 + monthDays y 6 + monthDays y 7 +
      monthDays y 8 + monthDays y 9 + monthDays y 10 + monthDays y 11 +
      monthDays y 12 := rfl

theorem daysInYear_eq (y : Nat) :
    daysInYear y = if isleap y then 366 else 365 := by
  rw [daysInYear_unfold]
  cases h : isleap y <;> simp [monthDays, h]

theorem monthDays_ge_28 (y m : Nat) (h1 : 1 ≤ m) (h2 : m ≤ 12) :
    28 ≤ monthDays y m := by
  interval_cases m <;> simp [monthDays]

theorem daysUpTo_succ (y m : Nat) :
    daysUpTo y (m + 1) = daysUpTo y m + monthDays y (m + 1) := rfl

theorem daysUpTo_mono (y : Nat) {a b : Nat} (h : a ≤ b) :
    daysUpTo y a ≤ daysUpTo y b := by
  induction b with
  | zero =>
    have ha : a = 0 := by omega
    subst ha
    exact Nat.le_refl _
  | succ b ih =>
    rcases Nat.lt_or_ge a (b + 1) with hb | hb
    · have h1 := ih (by omega)
      have h2 := daysUpTo_succ y b
      omega
    · have ha : a = b + 1 := by omega
      subst ha
      exact Nat.le_refl _

theorem isleap_false_iff (y : Nat) :
    isleap y = false ↔ (y % 4 ≠ 0 ∨ (y % 100 = 0 ∧ y % 400 ≠ 0)) := by
  rw [← Bool.not_eq_true, isleap_iff]
  tauto

set_option maxHeartbeats 1000000 in
theorem daysBeforeYear_succ_of_false (y : Nat) (hy : 1 ≤ y) (h : isleap y = false) :
    daysBeforeYear (y + 1) = daysBeforeYear y + 365 := by
  rcases (isleap_false_iff y).1 h with h1 | ⟨h1, h2⟩ <;>
    (clear h; simp only [daysBeforeYear, Nat.add_sub_cancel]; omega)

set_option maxHeartbeats 1000000 in
theorem daysBeforeYear_succ_of_true (y : Nat) (hy : 1 ≤ y) (h : isleap y = true) :
    daysBeforeYear (y + 1) = daysBeforeYear y + 366 := by
  obtain ⟨h1, h2 | h2⟩ := (isleap_iff y).1 h <;>
    (clear h; simp only [daysBeforeYear, Nat.add_sub_cancel]; omega)

theorem daysBeforeYear_succ (y : Nat) (hy : 1 ≤ y) :
    daysBeforeYear (y + 1) = daysBeforeYear y + daysInYear y := by
  rw [daysInYear_eq]
  cases h : isleap y
  · rw [if_neg Bool.false_ne_true]
    exact daysBeforeYear_succ_of_false y hy h
  · rw [if_pos rfl]
    exact daysBeforeYear_succ_of_true y hy h

theorem daysBeforeYear_mono {a b : Nat} (h : a ≤ b) :
    daysBeforeYear a ≤ daysBeforeYear b := by
  have h4 : (a - 1) / 4 ≤ (b - 1) / 4 := Nat.div_le_div_right (by omega)
  have h100 : (a - 1) / 100 ≤ (b - 1) / 100 := Nat.div_le_div_right (by omega)
  have h400 : (a - 1) / 400 ≤ (b - 1) / 400 := Nat.div_le_div_right (by omega)
  simp only [daysBeforeYear]
  omega

theorem daysBeforeYear_lb (y : Nat) : (y - 1) * 365 ≤ daysBeforeYear y := by
  simp only [daysBeforeYear]
  omega

theorem daysBeforeYear_ub (y : Nat) : daysBeforeYear y ≤ (y - 1) * 366 := by
  simp only [daysBeforeYear]
  omega

theorem yearSearch_eq (n y : Nat) :
    ∀ fuel y0, y0 ≤ y → y - y0 ≤ fuel →
      daysBeforeYear y < n → n ≤ daysBeforeYear (y + 1) →
      yearSearch n y0 fuel = y := by
  intro fuel
  induction fuel with
  | zero =>
    intro y0 h1 h2 h3 h4
    have : y0 = y := by omega
    simp [yearSearch, this]
  | succ fuel ih =>
    intro y0 h1 h2 h3 h4
    rcases Nat.lt_or_ge y0 y with hlt | hge
    · have hcond : ¬ n ≤ daysBeforeYear (y0 + 1) := by
        have : daysBeforeYear (y0 + 1) ≤ daysBeforeYear y := daysBeforeYear_mono (by omega)
        omega
      simp only [yearSearch, if_neg hcond]
      exact ih (y0 + 1) (by omega) (by omega) h3 h4
    · have : y0 = y := by omega
      subst this
      simp only [yearSearch, if_pos h4]

theorem ord2year_eq {n y : Nat} (hy : 1 ≤ y)
    (h1 : daysBeforeYear y < n) (h2 : n ≤ daysBeforeYear (y + 1)) :
    ord2year n = y := by
  have hstart : daysBeforeYear ((n - 1) / 366 + 1) < n := by
    have := daysBeforeYear_ub ((n - 1) / 366 + 1)
    have h365 : (y - 1) * 365 ≤ daysBeforeYear y := daysBeforeYear_lb y
    omega
  have hle : (n - 1) / 366 + 1 ≤ y := by
    by_contra hc
    have : y + 1 ≤ (n - 1) / 366 + 1 := by omega
    have := daysBeforeYear_mono this
    omega
  have hfuel : y - ((n - 1) / 366 + 1) ≤ n := by
    have := daysBeforeYear_lb y
    omega
  exact yearSearch_eq n y n ((n - 1) / 366 + 1) hle hfuel h1 h2

theorem yearBracket (n : Nat) (hn : 1 ≤ n) :
    ∃ y, 1 ≤ y ∧ daysBeforeYear y < n ∧ n ≤ daysBeforeYear (y + 1) := by
  have main : ∀ k y0, 1 ≤ y0 → daysBeforeYear y0 < n →
      n ≤ daysBeforeYear (y0 + k + 1) →
      ∃ y, 1 ≤ y ∧ daysBeforeYear y < n ∧ n ≤ daysBeforeYear (y + 1) := by
    intro k
    induction k with
    | zero =>
      intro y0 h0 h1 h2
      exact ⟨y0, h0, h1, by simpa using h2⟩
    | succ k ih =>
      intro y0 h0 h1 h2
      rcases le_or_lt n (daysBeforeYear (y0 + 1)) with hle | hlt
      · exact ⟨y0, h0, h1, hle⟩
      · refine ih (y0 + 1) (by omega) hlt ?_
        rw [show y0 + 1 + k + 1 = y0 + (k + 1) + 1 from by omega]
        exact h2
  have h1 : daysBeforeYear 1 < n := by
    simp only [daysBeforeYear]
    omega
  have h2 : n ≤ daysBeforeYear (1 + n + 1) := by
    have := daysBeforeYear_lb (1 + n + 1)
    omega
  exact main n 1 (by omega) h1 h2

theorem ord2year_bracket (n : Nat) (hn : 1 ≤ n) :
    1 ≤ ord2year n ∧ daysBeforeYear (ord2year n) < n ∧
      n ≤ daysBeforeYear (ord2year n + 1) := by
  obtain ⟨y, hy, h1, h2⟩ := yearBracket n hn
  rw [ord2year_eq hy h1 h2]
  exact ⟨hy, h1, h2⟩

theorem monthSearch_eq (y doy m : Nat) :
    ∀ fuel m0, 1 ≤ m0 → m0 ≤ m → m - m0 ≤ fuel →
      daysUpTo y (m - 1) ≤ doy → doy < daysUpTo y m →
      monthSearch y doy m0 fuel = m := by
  intro fuel
  induction fuel with
  | zero =>
    intro m0 h0 h1 h2 h3 h4
    have : m0 = m := by omega
    simp [monthSearch, this]
  | succ fuel ih =>
    intro m0 h0 h1 h2 h3 h4
    rcases Nat.lt_or_ge m0 m with hlt | hge
    · have hcond : ¬ doy < daysUpTo y m0 := by
        have : daysUpTo y m0 ≤ daysUpTo y (m - 1) := daysUpTo_mono y (by omega)
        omega
      simp only [monthSearch, if_neg hcond]
      exact ih (m0 + 1) (by omega) (by omega) (by omega) h3 h4
    · have : m0 = m := by omega
      subst this
      simp only [monthSearch, if_pos h4]

theorem monthBracket (y : Nat) :
    ∀ M j, j < daysUpTo y M →
      ∃ m, 1 ≤ m ∧ m ≤ M ∧ daysUpTo y (m - 1) ≤ j ∧ j < daysUpTo y m := by
  intro M
  induction M with
  | zero =>
    intro j hj
    simp [daysUpTo] at hj
  | succ M ih =>
    intro j hj
    rcases Nat.lt_or_ge j (daysUpTo y M) with hlt | hge
    · obtain ⟨m, hm1, hm2, hm3, hm4⟩ := ih j hlt
      exact ⟨m, hm1, by omega, hm3, hm4⟩
    · exact ⟨M + 1, by omega, by omega, by simpa using hge, hj⟩

theorem ord2ymd_inYear {y j m : Nat} (hy : 1 ≤ y) (hm1 : 1 ≤ m) (hm2 : m ≤ 12)
    (hj1 : daysUpTo y (m - 1) ≤ j) (hj2 : j < daysUpTo y m) :
    ord2ymd (daysBeforeYear y + 1 + j) = (y, m, j + 1 - daysUpTo y (m - 1)) := by
  have hjy : j < daysInYear y := by
    have : daysUpTo y m ≤ daysUpTo y 12 := daysUpTo_mono y hm2
    simpa [daysInYear] using Nat.lt_of_lt_of_le hj2 this
  have hy1 : daysBeforeYear y < daysBeforeYear y + 1 + j := by omega
  have hy2 : daysBeforeYear y + 1 + j ≤ daysBeforeYear (y + 1) := by
    rw [daysBeforeYear_succ y hy]
    omega
  have hyear : ord2year (daysBeforeYear y + 1 + j) = y := ord2year_eq hy hy1 hy2
  have hdoy : daysBeforeYear y + 1 + j - 1 - daysBeforeYear y = j := by omega
  have hmonth : monthSearch y j 1 11 = m :=
    monthSearch_eq y j m 11 1 (by omega) hm1 (by omega) hj1 hj2
  simp only [ord2ymd, hyear, hdoy, hmonth]

/-! Structure of the built CalendarModel. -/

theorem for_year_months_eq (y : Nat) :
    (CalendarModel.for_year y).months =
      [⟨0, "January", "Jan", monthDays y 1, daysUpTo y 0⟩,
       ⟨1, "February", "Feb", monthDays y 2, daysUpTo y 1⟩,
       ⟨2, "March", "Mar", monthDays y 3, daysUpTo y 2⟩,
       ⟨3, "April", "Apr", monthDays y 4, daysUpTo y 3⟩,
       ⟨4, "May", "May", monthDays y 5, daysUpTo y 4⟩,
       ⟨5, "June", "Jun", monthDays y 6, daysUpTo y 5⟩,
       ⟨6, "July", "Jul", monthDays y 7, daysUpTo y 6⟩,
       ⟨7, "August", "Aug", monthDays y 8, daysUpTo y 7⟩,
       ⟨8, "September", "Sep", monthDays y 9, daysUpTo y 8⟩,
       ⟨9, "October", "Oct", monthDays y 10, daysUpTo y 9⟩,
       ⟨10, "November", "Nov", monthDays y 11, daysUpTo y 10⟩,
       ⟨11, "December", "Dec", monthDays y 12, daysUpTo y 11⟩] := rfl

theorem for_year_total_days (y : Nat) :
    (CalendarModel.for_year y).total_days = daysUpTo y 12 := rfl

theorem for_year_weeks_in_year (y : Nat) :
    (CalendarModel.for_year y).weeks_in_year = isocalendarWeek y 12 28 := rfl

theorem for_year_year (y : Nat) : (CalendarModel.for_year y).year = y := rfl

theorem for_year_start_eq (y : Nat) {i : Nat} (h : i < 12) :
    ((CalendarModel.for_year y).months.getD i default).start_day_of_year =
      daysUpTo y i := by
  interval_cases i <;> rfl

theorem for_year_days_eq (y : Nat) {i : Nat} (h : i < 12) :
    ((CalendarModel.for_year y).months.getD i default).days =
      monthDays y (i + 1) := by
  interval_cases i <;> rfl

theorem for_year_day_of_year_eq (y : Nat) {i : Nat} (h : i < 12) (d : Nat) :
    (CalendarModel.for_year y).day_of_year i d = daysUpTo y i + (d - 1) := by
  rw [CalendarModel.day_of_year, for_year_start_eq y h]

theorem daysUpTo_eq_sum (y : Nat) :
    ∀ m, daysUpTo y m = ((List.range m).map (fun k => monthDays y (k + 1))).sum := by
  intro m
  induction m with
  | zero => rfl
  | succ m ih =>
    rw [daysUpTo_succ, List.range_succ, List.map_append, List.sum_append]
    simp [ih]

/-- Claim C8: for every year `y` (in the host library's range),
`CalendarModel.for_year(y).total_days` is 366 in a leap year and 365
otherwise, with the leap rule "divisible by 4, except centuries not
divisible by 400". -/
theorem for_year_total_days_leap_rule (y : Nat) (hy : 1 ≤ y) :
    (CalendarModel.for_year y).total_days =
      if y % 4 = 0 ∧ (y % 100 ≠ 0 ∨ y % 400 = 0) then 366 else 365 := by
  have ht : (CalendarModel.for_year y).total_days = daysInYear y := rfl
  rw [ht, daysInYear_eq]
  by_cases hp : y % 4 = 0 ∧ (y % 100 ≠ 0 ∨ y % 400 = 0)
  · rw [(isleap_iff y).2 hp, if_pos rfl, if_pos hp]
  · have hf : isleap y = false := by
      rw [isleap_false_iff]
      tauto
    rw [hf, if_neg Bool.false_ne_true, if_neg hp]

/-- Witness for C8 at year 2024 (a leap year). -/
theorem for_year_total_days_leap_rule_witness :
    1 ≤ 2024 ∧ (CalendarModel.for_year 2024).total_days =
      if 2024 % 4 = 0 ∧ (2024 % 100 ≠ 0 ∨ 2024 % 400 = 0) then 366 else 365 :=
  ⟨by decide, for_year_total_days_leap_rule 2024 (by decide)⟩

/-- Claim C7: the built model has 12 months; their day counts sum to
`total_days`; month 0 starts at day-of-year offset 0; and every month's
`start_day_of_year` equals the sum of the day counts of the preceding
months. -/
theorem for_year_month_invariants (y : Nat) (hy : 1 ≤ y) :
    (CalendarModel.for_year y).months.length = 12 ∧
    ((CalendarModel.for_year y).months.map (fun mi => mi.days)).sum =
      (CalendarModel.for_year y).total_days ∧
    ((CalendarModel.for_year y).months.getD 0 default).start_day_of_year = 0 ∧
    ∀ i, i < 12 →
      ((CalendarModel.for_year y).months.getD i default).start_day_of_year =
        (((CalendarModel.for_year y).months.take i).map (fun mi => mi.days)).sum := by
  refine ⟨by rfl, ?_, for_year_start_eq y (by omega), ?_⟩
  · rw [for_year_total_days, daysUpTo_eq_sum, for_year_months_eq]
    simp [List.range_succ]
  · intro i hi
    rw [for_year_start_eq y hi, daysUpTo_eq_sum, for_year_months_eq]
    interval_cases i <;> simp [List.range_succ]

/-- Witness for C7 at year 2026. -/
theorem for_year_month_invariants_witness :
    1 ≤ 2026 ∧
    ((CalendarModel.for_year 2026).months.length = 12 ∧
    ((CalendarModel.for_year 2026).months.map (fun mi => mi.days)).sum =
      (CalendarModel.for_year 2026).total_days ∧
    ((CalendarModel.for_year 2026).months.getD 0 default).start_day_of_year = 0 ∧
    ∀ i, i < 12 →
      ((CalendarModel.for_year 2026).months.getD i default).start_day_of_year =
        (((CalendarModel.for_year 2026).months.take i).map (fun mi => mi.days)).sum) :=
  ⟨by decide, for_year_month_invariants 2026 (by decide)⟩

/-- Claim C6: `day_of_year` is strictly increasing in lexicographic
(month, day) order over valid pairs (`1 ≤ d ≤` that month's day count),
stays below `total_days`, and attains every value in `[0, total_days)`. -/
theorem day_of_year_mono_cover (y : Nat) (hy : 1 ≤ y) :
    (∀ m1, m1 < 12 → ∀ m2, m2 < 12 →
      ∀ d1, 1 ≤ d1 → d1 ≤ ((CalendarModel.for_year y).months.getD m1 default).days →
      ∀ d2, 1 ≤ d2 → d2 ≤ ((CalendarModel.for_year y).months.getD m2 default).days →
      (m1 < m2 ∨ (m1 = m2 ∧ d1 < d2)) →
      (CalendarModel.for_year y).day_of_year m1 d1 <
        (CalendarModel.for_year y).day_of_year m2 d2) ∧
    (∀ m, m < 12 → ∀ d, 1 ≤ d →
      d ≤ ((CalendarModel.for_year y).months.getD m default).days →
      (CalendarModel.for_year y).day_of_year m d <
        (CalendarModel.for_year y).total_days) ∧
    (∀ n, n < (CalendarModel.for_year y).total_days →
      ∃ m d, m < 12 ∧ 1 ≤ d ∧
        d ≤ ((CalendarModel.for_year y).months.getD m default).days ∧
        (CalendarModel.for_year y).day_of_year m d = n) := by
  refine ⟨?_, ?_, ?_⟩
  · intro m1 hm1 m2 hm2 d1 hd1a hd1b d2 hd2a hd2b hlex
    rw [for_year_days_eq y hm1] at hd1b
    rw [for_year_days_eq y hm2] at hd2b
    rw [for_year_day_of_year_eq y hm1, for_year_day_of_year_eq y hm2]
    rcases hlex with hlt | ⟨heq, hdlt⟩
    · have hstep := daysUpTo_succ y m1
      have hmono : daysUpTo y (m1 + 1) ≤ daysUpTo y m2 := daysUpTo_mono y (by omega)
      omega
    · subst heq
      omega
  · intro m hm d hd1 hd2
    rw [for_year_days_eq y hm] at hd2
    rw [for_year_day_of_year_eq y hm, for_year_total_days]
    have hstep := daysUpTo_succ y m
    have hmono : daysUpTo y (m + 1) ≤ daysUpTo y 12 := daysUpTo_mono y (by omega)
    omega
  · intro n hn
    rw [for_year_total_days] at hn
    obtain ⟨mu, hmu1, hmu12, hlo, hhi⟩ := monthBracket y 12 n hn
    have hm : mu - 1 < 12 := by omega
    have hstep : daysUpTo y mu = daysUpTo y (mu - 1) + monthDays y mu := by
      rw [show mu = (mu - 1) + 1 from by omega, daysUpTo_succ]
      rw [show mu - 1 + 1 - 1 = mu - 1 from by omega]
    refine ⟨mu - 1, n - daysUpTo y (mu - 1) + 1, hm, by omega, ?_, ?_⟩
    · rw [for_year_days_eq y hm, show mu - 1 + 1 = mu from by omega]
      omega
    · rw [for_year_day_of_year_eq y hm]
      omega

/-- Witness for C6 at year 2026. -/
theorem day_of_year_mono_cover_witness :
    1 ≤ 2026 ∧
    ((∀ m1, m1 < 12 → ∀ m2, m2 < 12 →
      ∀ d1, 1 ≤ d1 → d1 ≤ ((CalendarModel.for_year 2026).months.getD m1 default).days →
      ∀ d2, 1 ≤ d2 → d2 ≤ ((CalendarModel.for_year 2026).months.getD m2 default).days →
      (m1 < m2 ∨ (m1 = m2 ∧ d1 < d2)) →
      (CalendarModel.for_year 2026).day_of_year m1 d1 <
        (CalendarModel.for_year 2026).day_of_year m2 d2) ∧
    (∀ m, m < 12 → ∀ d, 1 ≤ d →
      d ≤ ((CalendarModel.for_year 2026).months.getD m default).days →
      (CalendarModel.for_year 2026).day_of_year m d <
        (CalendarModel.for_year 2026).total_days) ∧
    (∀ n, n < (CalendarModel.for_year 2026).total_days →
      ∃ m d, m < 12 ∧ 1 ≤ d ∧
        d ≤ ((CalendarModel.for_year 2026).months.getD m default).days ∧
        (CalendarModel.for_year 2026).day_of_year m d = n)) :=
  ⟨by decide, day_of_year_mono_cover 2026 (by decide)⟩

/-! ISO week count facts. -/

theorem int_fdiv_coe (a b : Nat) :
    Int.fdiv (a : Int) (b : Int) = ((a / b : Nat) : Int) :=
  (Int.ofNat_fdiv a b).symm

theorem daysUpTo_11_unfold (y : Nat) :
    daysUpTo y 11 = 0 + monthDays y 1 + monthDays y 2 + monthDays y 3 +
      monthDays y 4 + monthDays y 5 + monthDays y 6 + monthDays y 7 +
      monthDays y 8 + monthDays y 9 + monthDays y 10 + monthDays y 11 := rfl

theorem daysUpTo_11_eq (y : Nat) :
    daysUpTo y 11 = if isleap y then 335 else 334 := by
  rw [daysUpTo_11_unfold]
  cases h : isleap y <;> simp [monthDays, h]

theorem isoweek1monday_bounds (y : Nat) (hy : 1 ≤ y) :
    ymd2ord y 1 1 ≤ isoweek1monday y + 3 ∧
      isoweek1monday y ≤ ymd2ord y 1 1 + 3 ∧ 1 ≤ isoweek1monday y := by
  have hj : ymd2ord y 1 1 = daysBeforeYear y + 1 := rfl
  simp only [isoweek1monday, weekday, hj]
  split <;> omega

theorem isocalendarWeek_dec28_eq (y : Nat) (hy : 1 ≤ y) :
    isocalendarWeek y 12 28 = (ymd2ord y 12 28 - isoweek1monday y) / 7 + 1 ∧
    52 ≤ (ymd2ord y 12 28 - isoweek1monday y) / 7 + 1 ∧
    (ymd2ord y 12 28 - isoweek1monday y) / 7 + 1 ≤ 53 := by
  obtain ⟨hb1, hb2, hb3⟩ := isoweek1monday_bounds y hy
  obtain ⟨hc1, hc2, hc3⟩ := isoweek1monday_bounds (y + 1) (by omega)
  have hj : ymd2ord y 1 1 = daysBeforeYear y + 1 := rfl
  have hj' : ymd2ord (y + 1) 1 1 = daysBeforeYear (y + 1) + 1 := rfl
  have hsucc := daysBeforeYear_succ y hy
  have ht : ymd2ord y 12 28 = daysBeforeYear y + daysUpTo y 11 + 28 := rfl
  have h11 := daysUpTo_11_eq y
  have hdy := daysInYear_eq y
  have hnum : (daysUpTo y 11 = 334 ∧ daysInYear y = 365) ∨
      (daysUpTo y 11 = 335 ∧ daysInYear y = 366) := by
    cases h : isleap y
    · rw [h] at h11 hdy
      simp at h11 hdy
      exact Or.inl ⟨h11, hdy⟩
    · rw [h] at h11 hdy
      simp at h11 hdy
      exact Or.inr ⟨h11, hdy⟩
  rcases hnum with ⟨e1, e2⟩ | ⟨e1, e2⟩ <;>
  · have hw1t : isoweek1monday y ≤ ymd2ord y 12 28 := by omega
    have hiso1 : ymd2ord y 12 28 < isoweek1monday (y + 1) := by omega
    have hcoe : (ymd2ord y 12 28 : Int) - (isoweek1monday y : Int) =
        ((ymd2ord y 12 28 - isoweek1monday y : Nat) : Int) := by omega
    have h7 : ((7 : Nat) : Int) = (7 : Int) := rfl
    have hfd : Int.fdiv ((ymd2ord y 12 28 - isoweek1monday y : Nat) : Int) (7 : Int) =
        (((ymd2ord y 12 28 - isoweek1monday y) / 7 : Nat) : Int) := by
      rw [← h7]
      exact (Int.ofNat_fdiv _ 7).symm
    have hrange : 358 ≤ ymd2ord y 12 28 - isoweek1monday y ∧
        ymd2ord y 12 28 - isoweek1monday y ≤ 366 := by omega
    simp only [isocalendarWeek]
    rw [hcoe, hfd]
    rw [if_neg (by omega)]
    rw [if_neg (by rintro ⟨h52, habs⟩; omega)]
    refine ⟨by omega, by omega, by omega⟩

/-- Claim C9: `weeks_in_year` is always 52 or 53 and equals the ISO week
number of December 28; for year 2026, `total_days = 365` and
`weeks_in_year = 53`. -/
theorem weeks_in_year_spec (y : Nat) (hy : 1 ≤ y) :
    ((CalendarModel.for_year y).weeks_in_year = 52 ∨
      (CalendarModel.for_year y).weeks_in_year = 53) ∧
    (CalendarModel.for_year y).weeks_in_year = isocalendarWeek y 12 28 ∧
    (CalendarModel.for_year 2026).total_days = 365 ∧
    (CalendarModel.for_year 2026).weeks_in_year = 53 := by
  obtain ⟨heq, h52, h53⟩ := isocalendarWeek_dec28_eq y hy
  refine ⟨?_, rfl, by decide, by decide⟩
  rw [for_year_weeks_in_year, heq]
  omega

/-- Witness for C9 at year 2026. -/
theorem weeks_in_year_spec_witness :
    1 ≤ 2026 ∧
    (((CalendarModel.for_year 2026).weeks_in_year = 52 ∨
      (CalendarModel.for_year 2026).weeks_in_year = 53) ∧
    (CalendarModel.for_year 2026).weeks_in_year = isocalendarWeek 2026 12 28 ∧
    (CalendarModel.for_year 2026).total_days = 365 ∧
    (CalendarModel.for_year 2026).weeks_in_year = 53) :=
  ⟨by decide, weeks_in_year_spec 2026 (by decide)⟩

/-! Page map: logical entities, section decomposition. -/

/-- Logical page-map entities: the five fixed single-instance pages, the
guide and future-log slots, and the indices fed to the public accessors. -/
inductive Entity where
  | cover
  | mainIndex
  | yearIndex
  | collectionIndexC
  | collectionIndexD
  | guide (i : Nat)
  | futureLog (i : Nat)
  | monthTimeline (m : Nat)
  | monthActionPlan (m : Nat)
  | weeklyAction (w : Nat)
  | weeklyReflection (w : Nat)
  | daily (d : Nat) (p : Nat)
  | collection (i : Nat)
deriving DecidableEq

/-- Valid index ranges of the entities, per settings and calendar: 12
months, `weeks_in_year` weeks, `total_days` days with `pages_per_day`
sub-pages, `num_collections_per_index * num_collection_indexes`
collections. -/
def Entity.valid (s : Settings) (c : CalendarModel) : Entity → Bool
  | .cover => true
  | .mainIndex => true
  | .yearIndex => true
  | .collectionIndexC => true
  | .collectionIndexD => true
  | .guide i => decide (i < s.num_guide_pages)
  | .futureLog i => decide (i < s.num_future_log_pages)
  | .monthTimeline m => decide (m < 12)
  | .monthActionPlan m => decide (m < 12)
  | .weeklyAction w => decide (w < c.weeks_in_year)
  | .weeklyReflection w => decide (w < c.weeks_in_year)
  | .daily d p => decide (d < c.total_days) && decide (p < s.pages_per_day)
  | .collection i => decide (i < s.num_collections_per_index * s.num_collection_indexes)

/-- Page index of an entity: the PageMap field for fixed pages, the public
accessor for monthly/weekly/daily/collection entities, start plus offset
for the guide and future-log slots (which have no accessor). -/
def pageOf (pm : PageMap) : Entity → Nat
  | .cover => pm.cover
  | .mainIndex => pm.main_index
  | .yearIndex => pm.year_index
  | .collectionIndexC => pm.collection_index_c
  | .collectionIndexD => pm.collection_index_d
  | .guide i => pm.guide_start + i
  | .futureLog i => pm.future_log_start + i
  | .monthTimeline m => pm.month_timeline m
  | .monthActionPlan m => pm.month_action_plan m
  | .weeklyAction w => pm.weekly_action w
  | .weeklyReflection w => pm.weekly_reflection w
  | .daily d p => pm.daily_page d p
  | .collection i => pm.collection_page i

/-- Section starts, in document order: fixed pages, guide, future log,
monthly, weekly, daily, collections. -/
def sectionStart (pm : PageMap) : Nat → Nat
  | 0 => 0
  | 1 => pm.guide_start
  | 2 => pm.future_log_start
  | 3 => pm.monthly_start
  | 4 => pm.weekly_start
  | 5 => pm.daily_start
  | 6 => pm.collection_start
  | _ => pm.total_pages

/-- Number of pages each section reserves. -/
def sectionSize (s : Settings) (c : CalendarModel) : Nat → Nat
  | 0 => 5
  | 1 => s.num_guide_pages
  | 2 => s.num_future_log_pages
  | 3 => 12 * 2
  | 4 => c.weeks_in_year * 2
  | 5 => c.total_days * s.pages_per_day
  | 6 => s.num_collections_per_index * s.num_collection_indexes * s.pages_per_collection
  | _ => 0

/-- Section of an entity. -/
def Entity.sec : Entity → Nat
  | .cover => 0
  | .mainIndex => 0
  | .yearIndex => 0
  | .collectionIndexC => 0
  | .collectionIndexD => 0
  | .guide _ => 1
  | .futureLog _ => 2
  | .monthTimeline _ => 3
  | .monthActionPlan _ => 3
  | .weeklyAction _ => 4
  | .weeklyReflection _ => 4
  | .daily _ _ => 5
  | .collection _ => 6

/-- Offset of an entity inside its section. -/
def Entity.off (s : Settings) : Entity → Nat
  | .cover => 0
  | .mainIndex => 1
  | .yearIndex => 2
  | .collectionIndexC => 3
  | .collectionIndexD => 4
  | .guide i => i
  | .futureLog i => i
  | .monthTimeline m => m * 2
  | .monthActionPlan m => m * 2 + 1
  | .weeklyAction w => w * 2
  | .weeklyReflection w => w * 2 + 1
  | .daily d p => d * s.pages_per_day + p
  | .collection i => i * s.pages_per_collection

theorem mul_add_lt {a A b B : Nat} (ha : a < A) (hb : b < B) :
    a * B + b < A * B := by
  have h1 : a * B + b < (a + 1) * B := by
    rw [Nat.succ_mul]
    omega
  have h2 : (a + 1) * B ≤ A * B := Nat.mul_le_mul_right B ha
  omega

theorem sectionStart_step (s : Settings) (c : CalendarModel) {k : Nat} (hk : k < 6) :
    sectionStart (build_page_map s c) (k + 1) =
      sectionStart (build_page_map s c) k + sectionSize s c k := by
  interval_cases k <;> rfl

theorem sectionStart_last (s : Settings) (c : CalendarModel) :
    sectionStart (build_page_map s c) 6 + sectionSize s c 6 =
      (build_page_map s c).total_pages := rfl

theorem sectionStart_zero (s : Settings) (c : CalendarModel) :
    sectionStart (build_page_map s c) 0 = 0 := rfl

theorem section_disjoint (s : Settings) (c : CalendarModel) {k1 k2 : Nat}
    (h : k1 < k2) (h2 : k2 < 7) :
    sectionStart (build_page_map s c) k1 + sectionSize s c k1 ≤
      sectionStart (build_page_map s c) k2 := by
  have e0 : sectionStart (build_page_map s c) 1 =
      sectionStart (build_page_map s c) 0 + sectionSize s c 0 := rfl
  have e1 : sectionStart (build_page_map s c) 2 =
      sectionStart (build_page_map s c) 1 + sectionSize s c 1 := rfl
  have e2 : sectionStart (build_page_map s c) 3 =
      sectionStart (build_page_map s c) 2 + sectionSize s c 2 := rfl
  have e3 : sectionStart (build_page_map s c) 4 =
      sectionStart (build_page_map s c) 3 + sectionSize s c 3 := rfl
  have e4 : sectionStart (build_page_map s c) 5 =
      sectionStart (build_page_map s c) 4 + sectionSize s c 4 := rfl
  have e5 : sectionStart (build_page_map s c) 6 =
      sectionStart (build_page_map s c) 5 + sectionSize s c 5 := rfl
  have hk1 : k1 < 7 := by omega
  interval_cases k1 <;> interval_cases k2 <;> omega

theorem pageOf_eq (s : Settings) (c : CalendarModel) (e : Entity) :
    pageOf (build_page_map s c) e =
      sectionStart (build_page_map s c) e.sec + e.off s := by
  cases e <;>
    simp [pageOf, Entity.sec, Entity.off, sectionStart, build_page_map,
      PageMap.month_timeline, PageMap.month_action_plan, PageMap.weekly_action,
      PageMap.weekly_reflection, PageMap.daily_page, PageMap.collection_page] <;>
    omega

theorem off_lt_size (s : Settings) (c : CalendarModel) (e : Entity)
    (hv : e.valid s c = true) (hppc : 1 ≤ s.pages_per_collection) :
    e.off s < sectionSize s c e.sec := by
  cases e <;> simp [Entity.valid, Entity.off, Entity.sec, sectionSize] at hv ⊢
  case guide i => omega
  case futureLog i => omega
  case monthTimeline m => omega
  case monthActionPlan m => omega
  case weeklyAction w => omega
  case weeklyReflection w => omega
  case daily d p => exact mul_add_lt hv.1 hv.2
  case collection i =>
    have := mul_add_lt hv hppc
    omega

theorem sec_lt_7 (e : Entity) : e.sec < 7 := by
  cases e <;> simp [Entity.sec]

theorem mul_add_inj {a1 a2 b1 b2 n : Nat} (hb1 : b1 < n) (hb2 : b2 < n)
    (he : a1 * n + b1 = a2 * n + b2) : a1 = a2 ∧ b1 = b2 := by
  rcases Nat.lt_trichotomy a1 a2 with h | h | h
  · exfalso
    have h1 : (a1 + 1) * n ≤ a2 * n := Nat.mul_le_mul_right n (by omega)
    have h2 : (a1 + 1) * n = a1 * n + n := Nat.succ_mul a1 n
    omega
  · subst h
    omega
  · exfalso
    have h1 : (a2 + 1) * n ≤ a1 * n := Nat.mul_le_mul_right n (by omega)
    have h2 : (a2 + 1) * n = a2 * n + n := Nat.succ_mul a2 n
    omega

/-- The default settings of `settings.py` for 2026. -/
def demoSettings : Settings :=
  ⟨2026, 2, 1, 6, 4, 18, 2, "output/BulletJournal_rPPM.pdf"⟩

/-- Default settings except `pages_per_collection = 0` (still
non-negative). -/
def zeroStrideSettings : Settings :=
  ⟨2026, 2, 0, 6, 4, 18, 2, "output/BulletJournal_rPPM.pdf"⟩

/-- Claim C1, amended with `1 ≤ pages_per_collection`: `total_pages` is the
sum of all section sizes; the entity-to-page assignment is injective over
all valid entities; and every page below `total_pages` lies in exactly one
section. -/
theorem page_map_bijection (s : Settings) (c : CalendarModel)
    (hppc : 1 ≤ s.pages_per_collection) :
    (build_page_map s c).total_pages =
      5 + s.num_guide_pages + s.num_future_log_pages + 12 * 2 +
        c.weeks_in_year * 2 + c.total_days * s.pages_per_day +
        s.num_collections_per_index * s.num_collection_indexes *
          s.pages_per_collection ∧
    (∀ e1 e2 : Entity, e1.valid s c = true → e2.valid s c = true →
      pageOf (build_page_map s c) e1 = pageOf (build_page_map s c) e2 →
      e1 = e2) ∧
    (∀ p, p < (build_page_map s c).total_pages →
      ∃! k, k < 7 ∧ sectionStart (build_page_map s c) k ≤ p ∧
        p < sectionStart (build_page_map s c) k + sectionSize s c k) := by
  have hz : sectionStart (build_page_map s c) 0 = 0 := rfl
  have e0 : sectionStart (build_page_map s c) 1 =
      sectionStart (build_page_map s c) 0 + sectionSize s c 0 := rfl
  have e1 : sectionStart (build_page_map s c) 2 =
      sectionStart (build_page_map s c) 1 + sectionSize s c 1 := rfl
  have e2 : sectionStart (build_page_map s c) 3 =
      sectionStart (build_page_map s c) 2 + sectionSize s c 2 := rfl
  have e3 : sectionStart (build_page_map s c) 4 =
      sectionStart (build_page_map s c) 3 + sectionSize s c 3 := rfl
  have e4 : sectionStart (build_page_map s c) 5 =
      sectionStart (build_page_map s c) 4 + sectionSize s c 4 := rfl
  have e5 : sectionStart (build_page_map s c) 6 =
      sectionStart (build_page_map s c) 5 + sectionSize s c 5 := rfl
  have elast : sectionStart (build_page_map s c) 6 + sectionSize s c 6 =
      (build_page_map s c).total_pages := rfl
  refine ⟨rfl, ?_, ?_⟩
  · intro ea eb hv1 hv2 heq
    rw [pageOf_eq, pageOf_eq] at heq
    have l1 := off_lt_size s c ea hv1 hppc
    have l2 := off_lt_size s c eb hv2 hppc
    have s1 := sec_lt_7 ea
    have s2 := sec_lt_7 eb
    have hsec : ea.sec = eb.sec := by
      rcases Nat.lt_trichotomy ea.sec eb.sec with h | h | h
      · have := section_disjoint s c h s2
        omega
      · exact h
      · have := section_disjoint s c h s1
        omega
    rw [hsec] at heq
    have hoff : ea.off s = eb.off s := by omega
    clear heq l1 l2 s1 s2 hz e0 e1 e2 e3 e4 e5 elast
    cases ea <;> cases eb <;> simp_all [Entity.sec, Entity.off, Entity.valid] <;>
      first
      | omega
      | (exact mul_add_inj hv1.2 hv2.2 hoff)
  · intro p hp
    by_cases c1 : p < sectionStart (build_page_map s c) 1
    · exact ⟨0, ⟨by omega, by omega, by omega⟩, fun k' hk' => by
        obtain ⟨a, b, d⟩ := hk'
        interval_cases k' <;> omega⟩
    · by_cases c2 : p < sectionStart (build_page_map s c) 2
      · exact ⟨1, ⟨by omega, by omega, by omega⟩, fun k' hk' => by
          obtain ⟨a, b, d⟩ := hk'
          interval_cases k' <;> omega⟩
      · by_cases c3 : p < sectionStart (build_page_map s c) 3
        · exact ⟨2, ⟨by omega, by omega, by omega⟩, fun k' hk' => by
            obtain ⟨a, b, d⟩ := hk'
            interval_cases k' <;> omega⟩
        · by_cases c4 : p < sectionStart (build_page_map s c) 4
          · exact ⟨3, ⟨by omega, by omega, by omega⟩, fun k' hk' => by
              obtain ⟨a, b, d⟩ := hk'
              interval_cases k' <;> omega⟩
          · by_cases c5 : p < sectionStart (build_page_map s c) 5
            · exact ⟨4, ⟨by omega, by omega, by omega⟩, fun k' hk' => by
                obtain ⟨a, b, d⟩ := hk'
                interval_cases k' <;> omega⟩
            · by_cases c6 : p < sectionStart (build_page_map s c) 6
              · exact ⟨5, ⟨by omega, by omega, by omega⟩, fun k' hk' => by
                  obtain ⟨a, b, d⟩ := hk'
                  interval_cases k' <;> omega⟩
              · exact ⟨6, ⟨by omega, by omega, by omega⟩, fun k' hk' => by
                  obtain ⟨a, b, d⟩ := hk'
                  interval_cases k' <;> omega⟩

/-- Counterexample to C1 as literally stated: with the non-negative
setting `pages_per_collection = 0`, the distinct valid collection entities
0 and 1 map to the same page. -/
theorem page_map_bijection_counterexample :
    (Entity.collection 0).valid zeroStrideSettings (CalendarModel.for_year 2026) = true ∧
    (Entity.collection 1).valid zeroStrideSettings (CalendarModel.for_year 2026) = true ∧
    Entity.collection 0 ≠ Entity.collection 1 ∧
    pageOf (build_page_map zeroStrideSettings (CalendarModel.for_year 2026))
        (Entity.collection 0) =
      pageOf (build_page_map zeroStrideSettings (CalendarModel.for_year 2026))
        (Entity.collection 1) := by
  refine ⟨by decide, by decide, by decide, by decide⟩

/-- Witness for the amended C1 at the default 2026 settings. -/
theorem page_map_bijection_witness :
    1 ≤ demoSettings.pages_per_collection ∧
    ((build_page_map demoSettings (CalendarModel.for_year 2026)).total_pages =
      5 + demoSettings.num_guide_pages + demoSettings.num_future_log_pages + 12 * 2 +
        (CalendarModel.for_year 2026).weeks_in_year * 2 +
        (CalendarModel.for_year 2026).total_days * demoSettings.pages_per_day +
        demoSettings.num_collections_per_index * demoSettings.num_collection_indexes *
          demoSettings.pages_per_collection ∧
    (∀ e1 e2 : Entity, e1.valid demoSettings (CalendarModel.for_year 2026) = true →
      e2.valid demoSettings (CalendarModel.for_year 2026) = true →
      pageOf (build_page_map demoSettings (CalendarModel.for_year 2026)) e1 =
        pageOf (build_page_map demoSettings (CalendarModel.for_year 2026)) e2 →
      e1 = e2) ∧
    (∀ p, p < (build_page_map demoSettings (CalendarModel.for_year 2026)).total_pages →
      ∃! k, k < 7 ∧
        sectionStart (build_page_map demoSettings (CalendarModel.for_year 2026)) k ≤ p ∧
        p < sectionStart (build_page_map demoSettings (CalendarModel.for_year 2026)) k +
          sectionSize demoSettings (CalendarModel.for_year 2026) k)) :=
  ⟨by decide, page_map_bijection demoSettings (CalendarModel.for_year 2026) (by decide)⟩

/-- Settings of end-to-end scenario 2, paired with the 365-day, 52-week
calendar of year 2025. -/
def scenarioSettings : Settings :=
  ⟨2025, 2, 1, 6, 4, 18, 2, "output/BulletJournal_rPPM.pdf"⟩

/-- Claim C2: the scenario-2 page map: a 365-day non-leap calendar with 52
ISO weeks, `pages_per_day = 2`, 6 guide pages, 4 future-log pages, 18×2
collections at 1 page each yields the expected section starts and
`total_pages = 909`. -/
theorem build_page_map_scenario :
    (CalendarModel.for_year 2025).total_days = 365 ∧
    (CalendarModel.for_year 2025).weeks_in_year = 52 ∧
    (build_page_map scenarioSettings (CalendarModel.for_year 2025)).guide_start = 5 ∧
    (build_page_map scenarioSettings (CalendarModel.for_year 2025)).future_log_start = 11 ∧
    (build_page_map scenarioSettings (CalendarModel.for_year 2025)).monthly_start = 15 ∧
    (build_page_map scenarioSettings (CalendarModel.for_year 2025)).weekly_start = 39 ∧
    (build_page_map scenarioSettings (CalendarModel.for_year 2025)).daily_start = 143 ∧
    (build_page_map scenarioSettings (CalendarModel.for_year 2025)).collection_start = 873 ∧
    (build_page_map scenarioSettings (CalendarModel.for_year 2025)).total_pages = 909 := by
  decide

/-- Claim C4: the `pages_per_day` sub-pages of a day are consecutive page
indices starting at `daily_page D 0`, and no other (day, sub-page) pair
lands in that range. -/
theorem daily_page_block (s : Settings) (c : CalendarModel) (D : Nat)
    (hD : D < c.total_days) :
    (∀ p, p < s.pages_per_day →
      (build_page_map s c).daily_page D p =
        (build_page_map s c).daily_page D 0 + p) ∧
    (∀ D' p', D' ≠ D → p' < s.pages_per_day →
      ¬((build_page_map s c).daily_page D 0 ≤
          (build_page_map s c).daily_page D' p' ∧
        (build_page_map s c).daily_page D' p' <
          (build_page_map s c).daily_page D 0 + s.pages_per_day)) := by
  constructor
  · intro p hp
    simp only [PageMap.daily_page, build_page_map]
    omega
  · intro D' p' hne hp'
    rintro ⟨hle, hlt⟩
    simp only [PageMap.daily_page, build_page_map] at hle hlt
    rcases Nat.lt_or_ge D' D with h | h
    · have h1 : (D' + 1) * s.pages_per_day ≤ D * s.pages_per_day :=
        Nat.mul_le_mul_right _ (by omega)
      have h2 : (D' + 1) * s.pages_per_day = D' * s.pages_per_day + s.pages_per_day :=
        Nat.succ_mul _ _
      omega
    · have hgt : D < D' := by omega
      have h1 : (D + 1) * s.pages_per_day ≤ D' * s.pages_per_day :=
        Nat.mul_le_mul_right _ (by omega)
      have h2 : (D + 1) * s.pages_per_day = D * s.pages_per_day + s.pages_per_day :=
        Nat.succ_mul _ _
      omega

/-- Witness for C4 at the 2026 defaults, day 10. -/
theorem daily_page_block_witness :
    10 < (CalendarModel.for_year 2026).total_days ∧
    ((∀ p, p < demoSettings.pages_per_day →
      (build_page_map demoSettings (CalendarModel.for_year 2026)).daily_page 10 p =
        (build_page_map demoSettings (CalendarModel.for_year 2026)).daily_page 10 0 + p) ∧
    (∀ D' p', D' ≠ 10 → p' < demoSettings.pages_per_day →
      ¬((build_page_map demoSettings (CalendarModel.for_year 2026)).daily_page 10 0 ≤
          (build_page_map demoSettings (CalendarModel.for_year 2026)).daily_page D' p' ∧
        (build_page_map demoSettings (CalendarModel.for_year 2026)).daily_page D' p' <
          (build_page_map demoSettings (CalendarModel.for_year 2026)).daily_page 10 0 +
            demoSettings.pages_per_day))) :=
  ⟨by decide, daily_page_block demoSettings (CalendarModel.for_year 2026) 10 (by decide)⟩

/-! Link ledger. -/

theorem links_of_adds {R : Type} (ts : List (Int × R × Int)) :
    ∀ lm : LinkManager R,
      (ts.foldl (fun lm t => lm.add t.1 t.2.1 t.2.2) lm).links =
        lm.links ++ ts.map (fun t => ⟨t.1, t.2.1, t.2.2⟩) := by
  induction ts with
  | nil => intro lm; simp
  | cons t ts ih =>
    intro lm
    simp only [List.foldl_cons, List.map_cons]
    rw [ih]
    simp [LinkManager.add]

theorem applyLinks_spec {R : Type} :
    ∀ (ls : List (DeferredLink R)) (doc : Document R)
      (acc : List (DeferredLink R)),
      (∀ l ∈ ls, 0 ≤ l.page_idx ∧ l.page_idx < (doc.page_count : Int)) →
      applyLinks ls doc acc = .ok
        (⟨doc.page_count,
          doc.inserted ++
            (ls.filter fun l => decide (0 ≤ l.dest_page_idx ∧
              l.dest_page_idx < (doc.page_count : Int))).map
              (fun l => (l.page_idx, l.rect, l.dest_page_idx))⟩,
         acc ++ ls.filter fun l => !decide (0 ≤ l.dest_page_idx ∧
           l.dest_page_idx < (doc.page_count : Int))) := by
  intro ls
  induction ls with
  | nil =>
    intro doc acc hsrc
    simp [applyLinks]
  | cons l ls ih =>
    intro doc acc hsrc
    obtain ⟨hs0, hs1⟩ := hsrc l (by simp)
    have hsrc' : ∀ l' ∈ ls, 0 ≤ l'.page_idx ∧ l'.page_idx < (doc.page_count : Int) :=
      fun l' hl' => hsrc l' (by simp [hl'])
    by_cases hd : 0 ≤ l.dest_page_idx ∧ l.dest_page_idx < (doc.page_count : Int)
    · have hget : doc.getPageIdx l.page_idx = some l.page_idx := by
        simp only [Document.getPageIdx]
        rw [if_pos ⟨hs0, hs1⟩]
      simp only [applyLinks, if_pos hd, hget]
      have ihd := ih (doc.insert_link l.page_idx l.rect l.dest_page_idx) acc hsrc'
      rw [ihd]
      simp [Document.insert_link, List.filter_cons, hd]
    · simp only [applyLinks, if_neg hd]
      rw [ih doc (acc ++ [l]) hsrc']
      simp [List.filter_cons, hd]
      rcases not_and_or.1 hd with h | h
      · rw [if_pos (by omega)]
      · rw [if_pos (by omega)]

/-- Claim C3, amended with "every recorded source page index is a valid
page of the document": `apply` returns exactly the links whose destination
is outside `[0, page_count)` as the invalid list (in record order, hence a
subset of the recorded list), and inserts a link for exactly the others,
each on its recorded source page, rectangle and destination; a link is
inserted iff `0 ≤ dest_page_idx < page_count`. -/
theorem link_manager_apply_partition {R : Type} (ls : List (DeferredLink R))
    (doc : Document R)
    (hsrc : ∀ l ∈ ls, 0 ≤ l.page_idx ∧ l.page_idx < (doc.page_count : Int)) :
    LinkManager.apply ⟨ls⟩ doc = .ok
      (⟨doc.page_count,
        doc.inserted ++
          (ls.filter fun l => decide (0 ≤ l.dest_page_idx ∧
            l.dest_page_idx < (doc.page_count : Int))).map
            (fun l => (l.page_idx, l.rect, l.dest_page_idx))⟩,
       ls.filter fun l => !decide (0 ≤ l.dest_page_idx ∧
         l.dest_page_idx < (doc.page_count : Int))) := by
  have h := applyLinks_spec ls doc [] hsrc
  simpa [LinkManager.apply] using h

/-- Counterexample to C3 as literally stated: a single link with in-range
destination 0 but source page 5 on a 1-page document makes `apply` raise
(model: `Except.error`) instead of returning an invalid list. -/
theorem link_manager_apply_counterexample :
    LinkManager.apply ⟨[⟨5, (), 0⟩]⟩ (⟨1, []⟩ : Document Unit) =
      .error ⟨5, (), 0⟩ := rfl

/-- Witness for the amended C3: two links on a 3-page document, one with a
bad destination; the good one is inserted, the bad one is returned. -/
theorem link_manager_apply_partition_witness :
    (∀ l ∈ [(⟨0, (), 5⟩ : DeferredLink Unit), ⟨2, (), 1⟩],
      0 ≤ l.page_idx ∧ l.page_idx < ((⟨3, []⟩ : Document Unit).page_count : Int)) ∧
    LinkManager.apply ⟨[(⟨0, (), 5⟩ : DeferredLink Unit), ⟨2, (), 1⟩]⟩
        (⟨3, []⟩ : Document Unit) =
      .ok (⟨3, [(2, (), 1)]⟩, [⟨0, (), 5⟩]) :=
  ⟨by decide, link_manager_apply_partition [⟨0, (), 5⟩, ⟨2, (), 1⟩] ⟨3, []⟩ (by decide)⟩

theorem applyLinks_invalid_bad_dest {R : Type} :
    ∀ (ls : List (DeferredLink R)) (doc : Document R)
      (acc : List (DeferredLink R)) out,
      applyLinks ls doc acc = .ok out →
      ∀ l ∈ out.2, l ∈ acc ∨
        ¬(0 ≤ l.dest_page_idx ∧ l.dest_page_idx < (doc.page_count : Int)) := by
  intro ls
  induction ls with
  | nil =>
    intro doc acc out heq l hl
    simp only [applyLinks, Except.ok.injEq] at heq
    subst heq
    exact Or.inl hl
  | cons x ls ih =>
    intro doc acc out heq l hl
    by_cases hd : 0 ≤ x.dest_page_idx ∧ x.dest_page_idx < (doc.page_count : Int)
    · rw [show applyLinks (x :: ls) doc acc =
          (if 0 ≤ x.dest_page_idx ∧ x.dest_page_idx < (doc.page_count : Int) then
            match doc.getPageIdx x.page_idx with
            | some p => applyLinks ls (doc.insert_link p x.rect x.dest_page_idx) acc
            | none => .error x
          else applyLinks ls doc (acc ++ [x])) from rfl, if_pos hd] at heq
      rcases hget : doc.getPageIdx x.page_idx with _ | p
      · rw [hget] at heq
        exact absurd heq (by simp)
      · rw [hget] at heq
        have := ih (doc.insert_link p x.rect x.dest_page_idx) acc out heq l hl
        exact this
    · rw [show applyLinks (x :: ls) doc acc =
          (if 0 ≤ x.dest_page_idx ∧ x.dest_page_idx < (doc.page_count : Int) then
            match doc.getPageIdx x.page_idx with
            | some p => applyLinks ls (doc.insert_link p x.rect x.dest_page_idx) acc
            | none => .error x
          else applyLinks ls doc (acc ++ [x])) from rfl, if_neg hd] at heq
      rcases ih doc (acc ++ [x]) out heq l hl with hin | hbad
      · rcases List.mem_append.1 hin with h | h
        · exact Or.inl h
        · simp at h
          subst h
          exact Or.inr hd
      · exact Or.inr hbad

/-- Claim C10: `apply` validates only the destination page index.  A link
returned as invalid always has an out-of-range destination — so a link
with an in-range destination is never collected, whatever its source — and
a link with an in-range destination whose source page index does not
resolve in the document reaches the indexing/insertion step and raises. -/
theorem apply_ignores_source_validity :
    (∀ (R : Type) (ls : List (DeferredLink R)) (doc : Document R) out,
      LinkManager.apply ⟨ls⟩ doc = .ok out →
      ∀ l ∈ out.2,
        ¬(0 ≤ l.dest_page_idx ∧ l.dest_page_idx < (doc.page_count : Int))) ∧
    (∀ (R : Type) (src : Int) (r : R) (dest : Int)
      (ls : List (DeferredLink R)) (doc : Document R),
      0 ≤ dest → dest < (doc.page_count : Int) →
      ((doc.page_count : Int) ≤ src ∨ src < -(doc.page_count : Int)) →
      LinkManager.apply ⟨⟨src, r, dest⟩ :: ls⟩ doc = .error ⟨src, r, dest⟩) := by
  constructor
  · intro R ls doc out heq l hl
    rcases applyLinks_invalid_bad_dest ls doc [] out heq l hl with hin | hbad
    · simp at hin
    · exact hbad
  · intro R src r dest ls doc h0 h1 hbad
    have hget : doc.getPageIdx src = none := by
      simp only [Document.getPageIdx]
      rcases hbad with h | h
      · rw [if_neg (by omega), if_neg (by omega)]
      · rw [if_neg (by omega), if_neg (by omega)]
    simp [LinkManager.apply, applyLinks, h0, h1, hget]

/-- Witness for C10: a dest-invalid link is returned (never a dest-valid
one), and a dest-valid link with source 100 on a 3-page document raises. -/
theorem apply_ignores_source_validity_witness :
    ¬(0 ≤ (⟨0, (), 99⟩ : DeferredLink Unit).dest_page_idx ∧
      (⟨0, (), 99⟩ : DeferredLink Unit).dest_page_idx <
        (((⟨3, []⟩ : Document Unit)).page_count : Int)) ∧
    LinkManager.apply ⟨[(⟨100, (), 0⟩ : DeferredLink Unit)]⟩
        (⟨3, []⟩ : Document Unit) = .error ⟨100, (), 0⟩ :=
  ⟨apply_ignores_source_validity.1 Unit [⟨0, (), 99⟩] ⟨3, []⟩
      (⟨3, []⟩, [⟨0, (), 99⟩]) rfl ⟨0, (), 99⟩ (by simp),
    apply_ignores_source_validity.2 Unit 100 () 0 [] ⟨3, []⟩ (by decide)
      (by decide) (by decide)⟩

/-! Generic list facts for the week_primary_month analysis. -/

theorem filterMap_range_cut (x : Nat) :
    ∀ N c (f : Nat → Option Nat),
      (∀ i, i < N → f i = if i < c then some x else none) →
      (List.range N).filterMap f = List.replicate (min c N) x := by
  intro N
  induction N with
  | zero =>
    intro c f h
    simp
  | succ N ih =>
    intro c f h
    rw [List.range_succ, List.filterMap_append, ih c f (fun i hi => h i (by omega))]
    have hN := h N (by omega)
    by_cases hc : N < c
    · rw [if_pos hc] at hN
      simp only [List.filterMap_cons, List.filterMap_nil, hN]
      rw [show min c N = N from by omega, show min c (N + 1) = N + 1 from by omega]
      rw [← List.replicate_succ']
    · rw [if_neg hc] at hN
      simp only [List.filterMap_cons, List.filterMap_nil, hN]
      rw [show min c N = min c (N + 1) from by omega]
      simp

theorem filterMap_range_skip (x : Nat) :
    ∀ N g (f : Nat → Option Nat),
      (∀ i, i < N → f i = if i < g then none else some x) →
      (List.range N).filterMap f = List.replicate (N - min g N) x := by
  intro N
  induction N with
  | zero =>
    intro g f h
    simp
  | succ N ih =>
    intro g f h
    rw [List.range_succ, List.filterMap_append, ih g f (fun i hi => h i (by omega))]
    have hN := h N (by omega)
    by_cases hg : N < g
    · rw [if_pos hg] at hN
      simp only [List.filterMap_cons, List.filterMap_nil, hN]
      rw [show N - min g N = 0 from by omega, show N + 1 - min g (N + 1) = 0 from by omega]
      simp
    · rw [if_neg hg] at hN
      simp only [List.filterMap_cons, List.filterMap_nil, hN]
      rw [show N + 1 - min g (N + 1) = (N - min g N) + 1 from by omega]
      rw [← List.replicate_succ']

theorem filterMap_range_two (x : Nat) :
    ∀ N c (f : Nat → Option Nat),
      (∀ i, i < N → f i = if i < c then some x else some (x + 1)) →
      (List.range N).filterMap f =
        List.replicate (min c N) x ++ List.replicate (N - min c N) (x + 1) := by
  intro N
  induction N with
  | zero =>
    intro c f h
    simp
  | succ N ih =>
    intro c f h
    rw [List.range_succ, List.filterMap_append, ih c f (fun i hi => h i (by omega))]
    have hN := h N (by omega)
    by_cases hc : N < c
    · rw [if_pos hc] at hN
      simp only [List.filterMap_cons, List.filterMap_nil, hN]
      rw [show min c N = N from by omega, show min c (N + 1) = N + 1 from by omega]
      simp [← List.replicate_succ']
    · rw [if_neg hc] at hN
      simp only [List.filterMap_cons, List.filterMap_nil, hN]
      rw [show min c (N + 1) = min c N from by omega,
        show N + 1 - min c N = (N - min c N) + 1 from by omega]
      simp [← List.replicate_succ']

theorem dictKeys_mem_fixed :
    ∀ (l ks : List Nat), (∀ m ∈ l, m ∈ ks) → dictKeys ks l = ks := by
  intro l
  induction l with
  | nil => intro ks _; rfl
  | cons a l ih =>
    intro ks h
    have ha : a ∈ ks := h a (by simp)
    simp only [dictKeys, if_pos ha]
    exact ih ks (fun m hm => h m (by simp [hm]))

theorem dictKeys_replicate {L : Nat} (hL : 1 ≤ L) (x : Nat) :
    dictKeys [] (List.replicate L x) = [x] := by
  rw [show L = (L - 1) + 1 from by omega, List.replicate_succ]
  have h0 : dictKeys [] (x :: List.replicate (L - 1) x) =
      dictKeys [x] (List.replicate (L - 1) x) := by
    simp [dictKeys]
  rw [h0]
  exact dictKeys_mem_fixed _ _ (by
    intro m hm
    rw [List.eq_of_mem_replicate hm]
    simp)

theorem dictKeys_two {a b : Nat} (ha : 1 ≤ a) (hb : 1 ≤ b) {x z : Nat} (hxz : x ≠ z) :
    dictKeys [] (List.replicate a x ++ List.replicate b z) = [x, z] := by
  have hzx : z ≠ x := Ne.symm hxz
  rw [show a = (a - 1) + 1 from by omega, List.replicate_succ, List.cons_append]
  have h0 : dictKeys [] (x :: (List.replicate (a - 1) x ++ List.replicate b z)) =
      dictKeys [x] (List.replicate (a - 1) x ++ List.replicate b z) := by
    simp [dictKeys]
  rw [h0]
  have h1 : ∀ k, dictKeys [x] (List.replicate k x ++ List.replicate b z) =
      dictKeys [x] (List.replicate b z) := by
    intro k
    induction k with
    | zero => simp
    | succ k ihk =>
      rw [List.replicate_succ, List.cons_append]
      simp only [dictKeys, List.mem_singleton, if_pos rfl]
      exact ihk
  rw [h1 (a - 1), show b = (b - 1) + 1 from by omega, List.replicate_succ]
  have h2 : dictKeys [x] (z :: List.replicate (b - 1) z) =
      dictKeys [x, z] (List.replicate (b - 1) z) := by
    simp [dictKeys, hzx]
  rw [h2]
  exact dictKeys_mem_fixed _ _ (by
    intro m hm
    rw [List.eq_of_mem_replicate hm]
    simp)

theorem maxKey_self_replicate (f : Nat → Nat) (x : Nat) :
    ∀ L, maxKey f x (List.replicate L x) = x := by
  intro L
  induction L with
  | zero => rfl
  | succ L ih =>
    rw [List.replicate_succ]
    simp only [maxKey, if_neg (lt_irrefl (f x))]
    exact ih

theorem maxKey_skip_self (f : Nat → Nat) (x : Nat) (T : List Nat) :
    ∀ k, maxKey f x (List.replicate k x ++ T) = maxKey f x T := by
  intro k
  induction k with
  | zero => simp
  | succ k ih =>
    rw [List.replicate_succ, List.cons_append]
    simp only [maxKey, if_neg (lt_irrefl (f x))]
    exact ih

theorem maxKey_replicate (f : Nat → Nat) (best z : Nat) :
    ∀ b, 1 ≤ b → maxKey f best (List.replicate b z) =
      if f z > f best then z else best := by
  intro b
  induction b with
  | zero => omega
  | succ b ih =>
    intro _
    rw [List.replicate_succ]
    simp only [maxKey]
    by_cases h : f z > f best
    · rw [if_pos h]
      exact maxKey_self_replicate f z b
    · rw [if_neg h]
      rcases Nat.eq_zero_or_pos b with hb | hb
      · subst hb
        rfl
      · rw [ih hb, if_neg h]

/-! Analysis of week_primary_month. -/

theorem ord2ymd_year_lt {n y : Nat} (hn : 1 ≤ n) (h : n ≤ daysBeforeYear y) :
    (ord2ymd n).1 < y := by
  obtain ⟨h1, h2, h3⟩ := ord2year_bracket n hn
  have he : (ord2ymd n).1 = ord2year n := rfl
  rw [he]
  by_contra hc
  push_neg at hc
  have := daysBeforeYear_mono hc
  omega

theorem ord2ymd_year_gt {n y : Nat} (hn : 1 ≤ n) (h : daysBeforeYear (y + 1) < n) :
    y < (ord2ymd n).1 := by
  obtain ⟨h1, h2, h3⟩ := ord2year_bracket n hn
  have he : (ord2ymd n).1 = ord2year n := rfl
  rw [he]
  by_contra hc
  push_neg at hc
  have : ord2year n + 1 ≤ y + 1 := by omega
  have := daysBeforeYear_mono this
  omega

theorem week1monday_repo (y : Nat) (hy : 1 ≤ y) :
    ymd2ord y 1 4 - weekday (ymd2ord y 1 4) = isoweek1monday y := by
  have hj4 : ymd2ord y 1 4 = daysBeforeYear y + 4 := rfl
  have hj1 : ymd2ord y 1 1 = daysBeforeYear y + 1 := rfl
  simp only [isoweek1monday, weekday, hj4, hj1]
  split <;> omega

theorem weekCaseJan {y S : Nat} (hy : 1 ≤ y) (hS1 : 1 ≤ S)
    (hlo : daysBeforeYear y + 1 ≤ S + 3) (hhi : S ≤ daysBeforeYear y + 4) :
    ∃ L, 4 ≤ L ∧ L ≤ 7 ∧ weekInYearMonths y S = List.replicate L 0 := by
  have h31 : daysUpTo y 1 = 31 := rfl
  have h0 : daysUpTo y 0 = 0 := rfl
  set g := (daysBeforeYear y + 1) - S with hg
  have hg3 : g ≤ 3 := by omega
  have hpt : ∀ i, i < 7 →
      (if (ord2ymd (S + i)).1 = y then some ((ord2ymd (S + i)).2.1 - 1) else none) =
        if i < g then none else some 0 := by
    intro i hi
    by_cases hig : i < g
    · rw [if_pos hig]
      have hlt : (ord2ymd (S + i)).1 < y := by
        refine ord2ymd_year_lt (by omega) (by omega)
      rw [if_neg (by omega)]
    · rw [if_neg hig]
      have hj : S + i = daysBeforeYear y + 1 + (S + i - (daysBeforeYear y + 1)) := by
        omega
      rw [hj, ord2ymd_inYear (m := 1) hy (by omega) (by omega)
        (by rw [show (1:Nat) - 1 = 0 from rfl, h0]; omega)
        (by rw [h31]; omega)]
      simp
  have hms := filterMap_range_cut 0 7 g
  have hres := filterMap_range_skip 0 7 g _ hpt
  refine ⟨7 - min g 7, by omega, by omega, ?_⟩
  rw [weekInYearMonths]
  exact hres

theorem weekCaseDec {y S : Nat} (hy : 1 ≤ y)
    (hlo : daysBeforeYear y + daysUpTo y 11 + 28 ≤ S + 6)
    (hhi : S ≤ daysBeforeYear y + daysUpTo y 11 + 28) :
    ∃ L, 4 ≤ L ∧ L ≤ 7 ∧ weekInYearMonths y S = List.replicate L 11 := by
  have h12 : daysUpTo y 12 = daysUpTo y 11 + 31 := rfl
  have hsucc := daysBeforeYear_succ y hy
  have hdiy : daysInYear y = daysUpTo y 12 := rfl
  have h1le : daysUpTo y 1 ≤ daysUpTo y 11 := daysUpTo_mono y (by omega)
  have h31 : daysUpTo y 1 = 31 := rfl
  set c := daysBeforeYear y + daysUpTo y 11 + 31 + 1 - S with hc
  have hc4 : 4 ≤ c := by omega
  have hpt : ∀ i, i < 7 →
      (if (ord2ymd (S + i)).1 = y then some ((ord2ymd (S + i)).2.1 - 1) else none) =
        if i < c then some 11 else none := by
    intro i hi
    by_cases hic : i < c
    · rw [if_pos hic]
      have hj : S + i = daysBeforeYear y + 1 + (S + i - (daysBeforeYear y + 1)) := by
        omega
      rw [hj, ord2ymd_inYear (m := 12) hy (by omega) (by omega)
        (by rw [show (12:Nat) - 1 = 11 from rfl]; omega)
        (by rw [h12]; omega)]
      simp
    · rw [if_neg hic]
      have hgt : y < (ord2ymd (S + i)).1 := by
        refine ord2ymd_year_gt (by omega) ?_
        omega
      rw [if_neg (by omega)]
  have hres := filterMap_range_cut 11 7 c _ hpt
  refine ⟨min c 7, by omega, by omega, ?_⟩
  rw [weekInYearMonths]
  exact hres

theorem weekCaseMid {y S : Nat} (hy : 1 ≤ y)
    (hlo : daysBeforeYear y + 1 ≤ S)
    (hhi : S + 6 < daysBeforeYear y + 1 + daysInYear y) :
    ∃ x a, 1 ≤ a ∧ a ≤ 7 ∧
      weekInYearMonths y S =
        List.replicate a x ++ List.replicate (7 - a) (x + 1) := by
  have hdiy : daysInYear y = daysUpTo y 12 := rfl
  set j := S - (daysBeforeYear y + 1) with hjdef
  have hjS : S = daysBeforeYear y + 1 + j := by omega
  have hj12 : j < daysUpTo y 12 := by omega
  obtain ⟨mu, hmu1, hmu12, hblo, hbhi⟩ := monthBracket y 12 j hj12
  set t := daysUpTo y mu - j with ht
  have ht1 : 1 ≤ t := by omega
  have hpt : ∀ i, i < 7 →
      (if (ord2ymd (S + i)).1 = y then some ((ord2ymd (S + i)).2.1 - 1) else none) =
        if i < t then some (mu - 1) else some (mu - 1 + 1) := by
    intro i hi
    have hSi : S + i = daysBeforeYear y + 1 + (j + i) := by omega
    by_cases hit : i < t
    · rw [if_pos hit, hSi,
        ord2ymd_inYear (m := mu) hy hmu1 hmu12 (by omega) (by omega)]
      simp
    · rw [if_neg hit]
      have hmulast : mu < 12 := by
        by_contra hc
        push_neg at hc
        have h1 : daysUpTo y 12 ≤ daysUpTo y mu := daysUpTo_mono y hc
        omega
      have h28 : 28 ≤ monthDays y (mu + 1) := monthDays_ge_28 y (mu + 1) (by omega) (by omega)
      have hup : daysUpTo y (mu + 1) = daysUpTo y mu + monthDays y (mu + 1) :=
        daysUpTo_succ y mu
      rw [hSi, ord2ymd_inYear (m := mu + 1) hy (by omega) (by omega)
        (by rw [show mu + 1 - 1 = mu from rfl]; omega)
        (by omega)]
      simp
      omega
  have hres := filterMap_range_two (mu - 1) 7 t
    (fun i => if (ord2ymd (S + i)).1 = y then some ((ord2ymd (S + i)).2.1 - 1) else none)
    hpt
  refine ⟨mu - 1, min t 7, by omega, by omega, ?_⟩
  rw [weekInYearMonths]
  exact hres

theorem primary_count_replicate (y w L x : Nat) (hL4 : 4 ≤ L)
    (hms : weekInYearMonths y (((CalendarModel.for_year y).week_date_range w).1) =
      List.replicate L x) :
    4 ≤ weekDaysInMonth (CalendarModel.for_year y) w
      ((CalendarModel.for_year y).week_primary_month w) := by
  have hcons : List.replicate L x = x :: List.replicate (L - 1) x := by
    conv_lhs => rw [show L = (L - 1) + 1 from by omega, List.replicate_succ]
  have hx : (CalendarModel.for_year y).week_primary_month w = x := by
    simp only [CalendarModel.week_primary_month, for_year_year]
    rw [hms, hcons]
    exact maxKey_self_replicate _ x (L - 1)
  rw [hx]
  simp only [weekDaysInMonth, for_year_year]
  rw [hms]
  simp [List.count_replicate]
  omega

theorem primary_count_two (y w a x : Nat) (ha1 : 1 ≤ a) (ha7 : a ≤ 7)
    (hms : weekInYearMonths y (((CalendarModel.for_year y).week_date_range w).1) =
      List.replicate a x ++ List.replicate (7 - a) (x + 1)) :
    4 ≤ weekDaysInMonth (CalendarModel.for_year y) w
      ((CalendarModel.for_year y).week_primary_month w) := by
  by_cases hafull : a = 7
  · subst hafull
    simp only [Nat.sub_self, List.replicate_zero, List.append_nil] at hms
    exact primary_count_replicate y w 7 x (by omega) hms
  · have hb1 : 1 ≤ 7 - a := by omega
    have hxz : x ≠ x + 1 := by omega
    have hrep : List.replicate a x = x :: List.replicate (a - 1) x := by
      conv_lhs => rw [show a = (a - 1) + 1 from by omega]
      rw [List.replicate_succ]
    have hcons : List.replicate a x ++ List.replicate (7 - a) (x + 1) =
        x :: (List.replicate (a - 1) x ++ List.replicate (7 - a) (x + 1)) := by
      rw [hrep, List.cons_append]
    have hcx : (List.replicate a x ++ List.replicate (7 - a) (x + 1)).count x = a := by
      rw [List.count_append]
      simp [List.count_replicate, Ne.symm hxz, hxz]
    have hcz : (List.replicate a x ++ List.replicate (7 - a) (x + 1)).count (x + 1) =
        7 - a := by
      rw [List.count_append]
      simp [List.count_replicate, Ne.symm hxz, hxz]
    have hx : (CalendarModel.for_year y).week_primary_month w =
        maxKey (fun m =>
          (x :: (List.replicate (a - 1) x ++ List.replicate (7 - a) (x + 1))).count m)
          x (List.replicate (a - 1) x ++ List.replicate (7 - a) (x + 1)) := by
      simp only [CalendarModel.week_primary_month, for_year_year]
      rw [hms, hcons]
    rw [maxKey_skip_self, maxKey_replicate _ _ _ (7 - a) hb1, ← hcons] at hx
    simp only [weekDaysInMonth, for_year_year]
    rw [hms, hx]
    by_cases hgt : (List.replicate a x ++ List.replicate (7 - a) (x + 1)).count (x + 1) >
        (List.replicate a x ++ List.replicate (7 - a) (x + 1)).count x
    · rw [if_pos hgt, hcz]
      rw [hcx, hcz] at hgt
      omega
    · rw [if_neg hgt, hcx]
      rw [hcx, hcz] at hgt
      omega

/-- Claim C5: for every week number in `[1, weeks_in_year]`,
`week_primary_month` returns a month that contains at least 4 of that
week's 7 days (so, for a week straddling two months, the month with the
majority); and whenever every day of a week falls outside the target year,
it returns January (0) if the week starts before the year and December
(11) otherwise. -/
theorem week_primary_month_spec (y w : Nat) (hy : 1 ≤ y) (hw : 1 ≤ w) :
    (w ≤ (CalendarModel.for_year y).weeks_in_year →
      4 ≤ weekDaysInMonth (CalendarModel.for_year y) w
        ((CalendarModel.for_year y).week_primary_month w)) ∧
    ((∀ i, i < 7 →
        (ord2ymd (((CalendarModel.for_year y).week_date_range w).1 + i)).1 ≠ y) →
      (CalendarModel.for_year y).week_primary_month w =
        if (ord2ymd ((CalendarModel.for_year y).week_date_range w).1).1 < y
        then 0 else 11) := by
  have hstart : ((CalendarModel.for_year y).week_date_range w).1 =
      isoweek1monday y + 7 * (w - 1) := by
    have h1 : ((CalendarModel.for_year y).week_date_range w).1 =
        ymd2ord y 1 4 - weekday (ymd2ord y 1 4) + 7 * (w - 1) := rfl
    rw [h1, week1monday_repo y hy]
  constructor
  · intro hwle
    obtain ⟨hb1, hb2, hb3⟩ := isoweek1monday_bounds y hy
    have hj1 : ymd2ord y 1 1 = daysBeforeYear y + 1 := rfl
    rw [hj1] at hb1 hb2
    have hwkEq : (CalendarModel.for_year y).weeks_in_year =
        (ymd2ord y 12 28 - isoweek1monday y) / 7 + 1 := by
      rw [for_year_weeks_in_year]
      exact (isocalendarWeek_dec28_eq y hy).1
    have hd28 : ymd2ord y 12 28 = daysBeforeYear y + daysUpTo y 11 + 28 := rfl
    have h1le : daysUpTo y 1 ≤ daysUpTo y 11 := daysUpTo_mono y (by omega)
    have h31 : daysUpTo y 1 = 31 := rfl
    have h12 : daysUpTo y 12 = daysUpTo y 11 + 31 := rfl
    have hdiy : daysInYear y = daysUpTo y 12 := rfl
    rw [hwkEq, hd28] at hwle
    by_cases hw1 : w = 1
    · obtain ⟨L, hL4, hL7, hms⟩ :=
        weekCaseJan (y := y) (S := isoweek1monday y + 7 * (w - 1)) hy
          (by omega) (by omega) (by omega)
      rw [← hstart] at hms
      exact primary_count_replicate y w L 0 hL4 hms
    · by_cases hwW : w = (daysBeforeYear y + daysUpTo y 11 + 28 -
          isoweek1monday y) / 7 + 1
      · obtain ⟨L, hL4, hL7, hms⟩ :=
          weekCaseDec (y := y) (S := isoweek1monday y + 7 * (w - 1)) hy
            (by omega) (by omega)
        rw [← hstart] at hms
        exact primary_count_replicate y w L 11 hL4 hms
      · have hwmid : 2 ≤ w ∧ w + 1 ≤ (daysBeforeYear y + daysUpTo y 11 + 28 -
            isoweek1monday y) / 7 + 1 := by
          constructor
          · omega
          · omega
        obtain ⟨x, a, ha1, ha7, hms⟩ :=
          weekCaseMid (y := y) (S := isoweek1monday y + 7 * (w - 1)) hy
            (by omega) (by omega)
        rw [← hstart] at hms
        exact primary_count_two y w a x ha1 ha7 hms
  · intro hout
    have hms : weekInYearMonths y
        (((CalendarModel.for_year y).week_date_range w).1) = [] := by
      rw [weekInYearMonths]
      rw [List.filterMap_eq_nil_iff]
      intro i hi
      rw [if_neg (hout i (List.mem_range.1 hi))]
    simp only [CalendarModel.week_primary_month, for_year_year]
    rw [hms]

/-- Witness for C5 at year 2026, week 1. -/
theorem week_primary_month_spec_witness :
    1 ≤ 2026 ∧ 1 ≤ 1 ∧
    ((1 ≤ (CalendarModel.for_year 2026).weeks_in_year →
      4 ≤ weekDaysInMonth (CalendarModel.for_year 2026) 1
        ((CalendarModel.for_year 2026).week_primary_month 1)) ∧
    ((∀ i, i < 7 →
        (ord2ymd (((CalendarModel.for_year 2026).week_date_range 1).1 + i)).1 ≠ 2026) →
      (CalendarModel.for_year 2026).week_primary_month 1 =
        if (ord2ymd ((CalendarModel.for_year 2026).week_date_range 1).1).1 < 2026
        then 0 else 11)) :=
  ⟨by decide, by decide, week_primary_month_spec 2026 1 (by decide) (by decide)⟩
